import Mathlib

/-!
Verification development for the audiowmark command-line front end
(src/audiowmark.cc) and the watermark engine it drives.

The file shallow-embeds the code in Lean:
real numbers (C++ float/double) become `ℚ`, machine integers become `ℕ`/`ℤ`
with explicit `% 2^w` where overflow matters, sample buffers become `List ℚ`,
and fallible operations return `Except`/`Option`.

Components of the repository that are only declared in src/audiowmark.cc but
whose code lives outside src/ (the Random PRNG, the watermark engine of
wmcommon, the short code) are modelled from the spec; each such definition
carries a doc comment starting with `Modelled from the spec:`.
-/

set_option maxRecDepth 2048

namespace Awm

/-! ## Keyed pseudo-random generator (Random, modelled from the spec) -/

/-- One 64-bit mixing step used by the modelled PRNG (a linear congruential
step reduced mod 2^64). -/
def keyedRandStep (x : ℕ) : ℕ :=
  (x * 6364136223846793005 + 1442695040888963407) % 18446744073709551616

/-- The named sub-streams of the keyed PRNG, mirroring `Random::Stream`
(`data_up_down`, `sync_up_down`, `pad`) used by src/audiowmark.cc. -/
inductive RStream where
  | data_up_down
  | sync_up_down
  | pad
deriving DecidableEq

def RStream.toNat : RStream → ℕ
  | .data_up_down => 0
  | .sync_up_down => 1
  | .pad => 2

/-- Modelled from the spec: `KeyedRandom` (random.hh/random.cc are not in
src/): a deterministic pseudo-random generator seeded from a key, exposing
independent named sub-streams; same (key, tag, index) always yields the same
value.  The `n`-th output of stream `tag` under `key` is modelled as a pure
function of the triple. -/
def keyedRand (key : ℕ) (tag : RStream) (n : ℕ) : ℕ :=
  keyedRandStep (keyedRandStep (key + 1) + 3 * tag.toNat + keyedRandStep (n + 1))

/-- C++ `Random` objects are seeded from a signed int; fold the sign into a
natural-number seed. -/
def seedNat (s : ℤ) : ℕ :=
  2 * s.natAbs + (if s < 0 then 1 else 0)

/-- Modelled from the spec: `Random::operator()` returns a uniform `uint64_t`;
the successive outputs are modelled as an indexed sequence of values
`< 2^64`. -/
def rngU64 (seed : ℤ) (n : ℕ) : ℕ :=
  keyedRand (seedNat seed) RStream.data_up_down n % 18446744073709551616

/-- Modelled from the spec: `Random::random_double()` returns a uniform value
in `[0,1)`; modelled as a 32-bit draw divided by 2^32. -/
def random_double (seed : ℤ) (n : ℕ) : ℚ :=
  ((keyedRand (seedNat seed) RStream.data_up_down n % 4294967296 : ℕ) : ℚ) / 4294967296

/-- Hex digit characters, as printed by `%02x`. -/
def hexChars : List Char := "0123456789abcdef".toList

/-- Modelled from the spec: `Random::gen_key()` (random.cc is not in src/)
produces a fresh 128-bit key, printed as 32 lowercase hex digits (16 random
bytes, two hex digits each).  The entropy source is abstracted as a seed. -/
def gen_key_string (seed : ℕ) : String :=
  String.mk ((List.range 32).map (fun i => hexChars.getD (keyedRand seed RStream.pad i / 1152921504606846976) 'x'))

/-! ## atoi model -/

def isDigitChar (c : Char) : Bool := 48 ≤ c.toNat && c.toNat ≤ 57

def digitVal (c : Char) : ℕ := c.toNat - 48

def atoiDigits : List Char → ℕ → ℕ
  | [], acc => acc
  | c :: cs, acc => if isDigitChar c then atoiDigits cs (acc * 10 + digitVal c) else acc

/-- Model of C `atoi`: an optional minus sign followed by a digit prefix;
anything else stops the scan (leading-whitespace and '+' handling are elided;
no caller in src/audiowmark.cc relies on them). -/
def atoi (s : String) : ℤ :=
  match s.toList with
  | '-' :: cs => -(atoiDigits cs 0 : ℤ)
  | cs => (atoiDigits cs 0 : ℤ)

/-! ## ArgParser (src/audiowmark.cc lines 423-533) -/

/-- `ArgParser::starts_with`: `s.substr (0, start.size()) == start`. -/
def cppStartsWith (s start : String) : Bool :=
  s.toList.take start.toList.length == start.toList

/-- The value carried by an `--option=value` token: `it->substr (option.size() + 1)`. -/
def optValueOf (opt a : String) : String :=
  String.mk (a.toList.drop (opt.toList.length + 1))

/-- `ArgParser::parse_opt (const string& option, string& out_s)`
(src/audiowmark.cc lines 449-472): a single left-to-right scan; an element
equal to `option` that has a successor consumes that successor as the value
(`--option foo`), an element starting with `option=` carries its own value
(`--option=foo`); matched elements are erased, `out_s` is overwritten at each
match, and the scan continues after the erased elements.  Returns
(found, last value written, remaining args). -/
def parseOptV (opt : String) : List String → Option String → Bool → Bool × Option String × List String
  | [], out, found => (found, out, [])
  | [a], out, found =>
    if cppStartsWith a (opt ++ "=") then (true, some (optValueOf opt a), [])
    else (found, out, [a])
  | a :: b :: rest, out, found =>
    if a == opt then parseOptV opt rest (some b) true
    else if cppStartsWith a (opt ++ "=") then parseOptV opt (b :: rest) (some (optValueOf opt a)) true
    else
      let r := parseOptV opt (b :: rest) out found
      (r.1, r.2.1, a :: r.2.2)

/-- Entry point of the value-taking `parse_opt`, with `out_s` initially unset. -/
def parseOptValue (opt : String) (args : List String) : Bool × Option String × List String :=
  parseOptV opt args none false

/-- `ArgParser::parse_opt (const string& option)` (flag form, lines 495-507):
erases the first occurrence only and returns immediately. -/
def parseOptFlag (opt : String) : List String → Bool × List String
  | [] => (false, [])
  | a :: rest =>
    if a == opt then (true, rest)
    else
      let r := parseOptFlag opt rest
      (r.1, a :: r.2)

/-! Spec-side reading of claim C10: the list of the values of all occurrences
of the option, where position `i` is an occurrence when `args[i] = option`
and a successor exists (value `args[i+1]`), or `args[i]` starts with
`option=` (value the suffix).  This follows the claim text, for comparison
with the `parse_opt` translation above. -/

def specOccValues (opt : String) : List String → List String
  | [] => []
  | [a] => if cppStartsWith a (opt ++ "=") then [optValueOf opt a] else []
  | a :: b :: rest =>
    if a == opt then b :: specOccValues opt (b :: rest)
    else if cppStartsWith a (opt ++ "=") then optValueOf opt a :: specOccValues opt (b :: rest)
    else specOccValues opt (b :: rest)

/-- No occurrence of the option is immediately followed by another token that
itself looks like the option (bare or `=`-form).  Under this condition the
greedy scan of `parse_opt` and the claim's occurrence list agree. -/
def overlapFree (opt : String) : List String → Bool
  | a :: b :: rest =>
    (!(a == opt) || (!(b == opt) && !(cppStartsWith b (opt ++ "=")))) && overlapFree opt (b :: rest)
  | _ => true

/-- Decidable equality for `Except`, used to evaluate concrete runs of the
fallible command pipelines. -/
instance instDecEqExcept {e a : Type} [DecidableEq e] [DecidableEq a] :
    DecidableEq (Except e a)
  | Except.error x, Except.error y =>
    if h : x = y then Decidable.isTrue (by rw [h]) else Decidable.isFalse (by simp [h])
  | Except.error _, Except.ok _ => Decidable.isFalse (by simp)
  | Except.ok _, Except.error _ => Decidable.isFalse (by simp)
  | Except.ok x, Except.ok y =>
    if h : x = y then Decidable.isTrue (by rw [h]) else Decidable.isFalse (by simp [h])

/-! ## Errors surfaced by the command front end -/

inductive CmdError where
  | KeyConflict
  | ShortPayloadUnsupported (size : ℤ)
  | SpeedConflict
  | InputShort
deriving DecidableEq

/-- Modelled from the spec: `short_code_init` (shortcode.cc is not in src/).
The short code is a compact error-correcting transform for payload sizes
below the full 128-bit message width, so the supported sizes are the positive
sizes strictly below 128 bits. -/
def short_code_init (size : ℤ) : Bool := 1 ≤ size && size < 128

/-! ## parse_shared_options (src/audiowmark.cc lines 535-575) -/

/-- The state accumulated by `parse_shared_options`: the options found by the
successive `parse_opt` scans, the `have_key` counter, and the remaining
argument list.  Numeric values that no verified claim depends on
(`--strength`) are kept as their raw strings. -/
structure SharedOpts where
  strengthRaw : Option String
  haveKey : ℕ
  keyFile : Option String
  testKey : Option ℤ
  shortPayload : Option ℤ
  framesPerBitOpt : Option ℤ
  linear : Bool
  rest : List String
deriving DecidableEq

/-- The sequential `parse_opt` scans of `parse_shared_options`, in source
order: `--strength`, `--key`, `--test-key`, `--short`, `--frames-per-bit`,
`--linear`.  `have_key` is incremented once for `--key` and once for
`--test-key`. -/
def scanSharedOptions (args : List String) : SharedOpts :=
  let r1 := parseOptValue "--strength" args
  let r2 := parseOptValue "--key" r1.2.2
  let r3 := parseOptValue "--test-key" r2.2.2
  let r4 := parseOptValue "--short" r3.2.2
  let r5 := parseOptValue "--frames-per-bit" r4.2.2
  let r6 := parseOptFlag "--linear" r5.2.2
  ⟨r1.2.1,
   (if r2.1 then 1 else 0) + (if r3.1 then 1 else 0),
   r2.2.1,
   r3.2.1.map atoi,
   r4.2.1.map atoi,
   r5.2.1.map atoi,
   r6.1,
   r6.2⟩

/-- `parse_shared_options`: inside the `--short` branch an unsupported payload
size is a fatal error (exit 1); afterwards `have_key > 1` is the fatal
key-conflict error (exit 1).  Errors are modelled as `Except.error`. -/
def parseSharedOptions (args : List String) : Except CmdError SharedOpts :=
  let st := scanSharedOptions args
  match st.shortPayload with
  | some sz =>
    if short_code_init sz then
      if st.haveKey > 1 then Except.error CmdError.KeyConflict else Except.ok st
    else Except.error (CmdError.ShortPayloadUnsupported sz)
  | none =>
    if st.haveKey > 1 then Except.error CmdError.KeyConflict else Except.ok st

/-- Whether the `--short` option, as consumed by the shared scan, is either
absent or names a supported payload size (so that `parse_shared_options`
reaches its key-conflict check). -/
def sharedShortOk (args : List String) : Bool :=
  match (scanSharedOptions args).shortPayload with
  | some sz => short_code_init sz
  | none => true

/-! ## parse_get_options (src/audiowmark.cc lines 662-708) -/

/-- The flags gathered by `parse_get_options` up to its speed-conflict check:
`--test-cut`, `--test-truncate`, `--hard`, `--test-no-sync`,
`--detect-speed`, `--detect-speed-patient`, `--try-speed` (value kept raw;
the `atof` conversion is irrelevant to the verified claims). -/
structure GetOptsPre where
  testCut : Option ℤ
  testTruncate : Option ℤ
  hard : Bool
  testNoSync : Bool
  detectSpeed : Bool
  detectSpeedPatient : Bool
  trySpeedRaw : Option String
  rest : List String
deriving DecidableEq

def scanGetPre (args : List String) : GetOptsPre :=
  let r1 := parseOptValue "--test-cut" args
  let r2 := parseOptValue "--test-truncate" r1.2.2
  let r3 := parseOptFlag "--hard" r2.2.2
  let r4 := parseOptFlag "--test-no-sync" r3.2
  let r5 := parseOptFlag "--detect-speed" r4.2
  let r6 := parseOptFlag "--detect-speed-patient" r5.2
  let r7 := parseOptValue "--try-speed" r6.2
  ⟨r1.2.1.map atoi, r2.2.1.map atoi, r3.1, r4.1, r5.1, r6.1, r7.2.1, r7.2.2⟩

/-- The `speed_options` counter of `parse_get_options`: one per speed-related
option found by the scans. -/
def speedOptionCount (args : List String) : ℕ :=
  let p := scanGetPre args
  (if p.detectSpeed then 1 else 0) + (if p.detectSpeedPatient then 1 else 0) +
    (if p.trySpeedRaw.isSome then 1 else 0)

/-- The options accepted by `parse_get_options` when no conflict occurs
(`--test-speed` and `--json` are scanned after the conflict check; values the
claims ignore are kept raw). -/
structure GetOpts where
  pre : GetOptsPre
  testSpeedRaw : Option String
  jsonFile : Option String
  rest : List String
deriving DecidableEq

/-- `parse_get_options`: after the speed-related scans, more than one of
`--detect-speed` / `--detect-speed-patient` / `--try-speed` is a fatal error
(exit 1); otherwise `--test-speed` and `--json` are scanned and parsing
succeeds. -/
def parseGetOptions (args : List String) : Except CmdError GetOpts :=
  let p := scanGetPre args
  if ((if p.detectSpeed then 1 else 0) + (if p.detectSpeedPatient then 1 else 0) +
      (if p.trySpeedRaw.isSome then 1 else 0)) > 1 then
    Except.error CmdError.SpeedConflict
  else
    let r8 := parseOptValue "--test-speed" p.rest
    let r9 := parseOptValue "--json" r8.2.2
    Except.ok ⟨p, r8.2.1, r9.2.1, r9.2.2⟩

/-- At least two of three booleans hold. -/
def atLeastTwo (a b c : Bool) : Bool := (a && b) || (a && c) || (b && c)

/-! ## gen-key (src/audiowmark.cc lines 400-412) -/

/-- `gen_key`: opens the output file; on failure reports an error and returns
exit status 1 without writing; on success writes
`"# watermarking key for audiowmark\n\nkey %s\n"` with the fresh key and
returns 0.  The file is modelled as the list of lines written (the trailing
newline terminates the last line); `canOpen` models whether `fopen`
succeeds. -/
def genKeyCmd (canOpen : Bool) (seed : ℕ) : Option (List String) × ℤ :=
  if canOpen then
    (some ["# watermarking key for audiowmark", "", "key " ++ gen_key_string seed], 0)
  else
    (none, 1)

/-! ## test_speed (src/audiowmark.cc lines 329-337) -/

/-- `test_speed`: prints `low + (rng() / double (UINT64_MAX)) * (high - low)`
with `low = 0.85`, `high = 1.15`, where `rng` is seeded from the given
seed. -/
def testSpeedFactor (seed : ℤ) : ℚ :=
  0.85 + ((rngU64 seed 0 : ℚ) / 18446744073709551615) * (1.15 - 0.85)

/-! ## test_gen_noise (src/audiowmark.cc lines 339-358) -/

/-- In-memory sample buffer with format metadata, mirroring `WavData`. -/
structure WavData where
  samples : List ℚ
  nChannels : ℕ
  sampleRate : ℕ
  bitDepth : ℕ
deriving DecidableEq

/-- `test_gen_noise`: 2 channels, 16 bits, the requested rate, and
`size_t (rate * seconds) * channels` samples of `random_double() * 2 - 1`
drawn from a `Random` seeded with the fixed seed 0.  The `size_t` cast of the
nonnegative product is its floor. -/
def testGenNoise (seconds : ℚ) (rate : ℕ) : WavData :=
  ⟨(List.range ((⌊(rate : ℚ) * seconds⌋).toNat * 2)).map (fun i => random_double 0 i * 2 - 1),
   2, rate, 16⟩

/-! ## test_clip (src/audiowmark.cc lines 290-327) -/

/-- The do/while loop of `test_clip`: draw a start point, compute
`end_point = start_point + time_seconds * sample_rate`, and stop as soon as
`end_point < frames` (the input's frame count).  `draw k` is the start point
produced by the `k`-th iteration's rng draws; `fuel` bounds the number of
iterations that are run — `none` for every fuel means the loop never
reaches its exit condition. -/
def testClipRun (frames tsecs rate : ℕ) (draw : ℕ → ℕ) : ℕ → ℕ → Option ℕ
  | _, 0 => none
  | k, fuel + 1 =>
    if draw k + tsecs * rate < frames then some (draw k)
    else testClipRun frames tsecs rate draw (k + 1) fuel

/-! ## Watermark engine (wmcommon is not in src/; modelled from the spec)

The spec describes the engine as keyed per-frame up/down modulation: each
frame draws a ±1 pattern from the keyed stream (`sync_up_down` for sync
frames, `data_up_down` for data frames) and the embedder adds a signed
perturbation, proportional to the strength parameter and to a per-frame
loudness reference, that drives the frame's pattern-correlation statistic to
the positive side (sync frames, and data frames carrying a 1 bit) or the
negative side (data frames carrying a 0 bit).  The decoder recomputes the
pattern and classifies the observed statistic as a binary decision above or
below the zero reference; sync search scores an offset by how many sync
frames classify positively. -/

/-- Frame/block geometry (FrameCodec): `frame_size`, `sync_frame_count`,
`frames_per_bit` and the configured message width in bits; the data frame
count is `msgBits * framesPerBit`. -/
structure Geometry where
  frameSize : ℕ
  syncFrameCount : ℕ
  framesPerBit : ℕ
  msgBits : ℕ
deriving DecidableEq

def Geometry.dataFrameCount (g : Geometry) : ℕ := g.msgBits * g.framesPerBit

def Geometry.blockFrames (g : Geometry) : ℕ := g.syncFrameCount + g.dataFrameCount

/-- Samples in one Block. -/
def Geometry.blockLen (g : Geometry) : ℕ := g.blockFrames * g.frameSize

/-- Modelled from the spec: the per-frame ±1 modulation pattern, a
deterministic function of (key, stream, frame index, position). -/
def patSign (key : ℕ) (tag : RStream) (j t : ℕ) : ℚ :=
  if keyedRand key tag (Nat.pair j t) % 2 = 0 then 1 else -1

/-- The pattern of one frame as a list of ±1 values. -/
def patList (g : Geometry) (key : ℕ) (tag : RStream) (j : ℕ) : List ℚ :=
  (List.range g.frameSize).map (patSign key tag j)

/-- The stream a frame draws its pattern from: sync frames first, then data
frames. -/
def frameTag (g : Geometry) (j : ℕ) : RStream :=
  if j < g.syncFrameCount then RStream.sync_up_down else RStream.data_up_down

/-- Pattern correlation of a frame: the decoder's decision statistic. -/
def corr (f s : List ℚ) : ℚ :=
  (List.zipWith (fun a b => a * b) f s).sum

/-- Modelled from the spec: the per-frame loudness reference the perturbation
is proportional to (a positive loudness statistic of the frame). -/
def loudRef (f : List ℚ) : ℚ :=
  1 + (f.map (fun x => |x|)).sum

/-- Frame `j` of `signal` at block offset `off`. -/
def frameAt (g : Geometry) (signal : List ℚ) (off j : ℕ) : List ℚ :=
  (signal.drop (off + j * g.frameSize)).take g.frameSize

/-- The up/down sign a frame is driven to: `+1` for sync frames (the
key-derived payload-independent marker) and the payload bit's sign for data
frames, frame `syncFrameCount + i * framesPerBit + r` carrying bit `i`. -/
def targetSign (g : Geometry) (msg : List Bool) (j : ℕ) : ℚ :=
  if j < g.syncFrameCount then 1
  else if msg.getD ((j - g.syncFrameCount) / g.framesPerBit) false then 1 else -1

/-- Modelled from the spec: embedding into one frame adds the signed
perturbation `pattern · (target - corr) / frameSize`, driving the frame's
pattern correlation to `target` (the up/down scheme with the host statistic
cancelled, so the perturbation is exactly detectable as a binary decision). -/
def embedFrame (f s : List ℚ) (target : ℚ) (n : ℕ) : List ℚ :=
  List.zipWith (fun x t => x + t * ((target - corr f s) / n)) f s

/-- Embed frame `j` of the block: pattern from the frame's stream, target
`±(strength · loudness reference)`. -/
def embedFrameJ (g : Geometry) (key : ℕ) (strength : ℚ) (msg : List Bool) (j : ℕ)
    (f : List ℚ) : List ℚ :=
  embedFrame f (patList g key (frameTag g j) j)
    (targetSign g msg j * (strength * loudRef f)) g.frameSize

/-- Modelled from the spec: `embed (signal, message, key, strength)` stamps
one Block at the start of the signal (sync frames then data frames, each bit
spread over `framesPerBit` consecutive frames) and leaves the remaining
samples untouched. -/
def embedSamples (g : Geometry) (signal : List ℚ) (msg : List Bool) (key : ℕ)
    (strength : ℚ) : List ℚ :=
  ((List.range g.blockFrames).map
      (fun j => embedFrameJ g key strength msg j (frameAt g signal 0 j))).flatten
    ++ signal.drop g.blockLen

inductive EmbedError where
  | InputTooShort
deriving DecidableEq

/-- The embedder refuses a signal shorter than one Block; otherwise it returns
a watermarked signal with the input's channel count, sample rate, and bit
depth. -/
def embedWav (g : Geometry) (w : WavData) (msg : List Bool) (key : ℕ)
    (strength : ℚ) : Except EmbedError WavData :=
  if w.samples.length < g.blockLen then Except.error EmbedError.InputTooShort
  else Except.ok ⟨embedSamples g w.samples msg key strength, w.nChannels, w.sampleRate, w.bitDepth⟩

/-- SyncSearch score of one candidate offset: how many sync frames classify
positively against the key-derived sync pattern. -/
def syncScoreAt (g : Geometry) (key : ℕ) (signal : List ℚ) (off : ℕ) : ℕ :=
  ((List.range g.syncFrameCount).filter
      (fun j => decide (0 < corr (frameAt g signal off j) (patList g key RStream.sync_up_down j)))).length

/-- SyncSearch: scan all candidate offsets and keep the best-scoring one,
preferring the earliest offset among ties (candidates are ordered by
descending score, then ascending offset; this returns the top candidate). -/
def locateBest (g : Geometry) (key : ℕ) (signal : List ℚ) : ℕ :=
  (List.range (signal.length - g.blockLen + 1)).foldl
    (fun best o => if syncScoreAt g key signal best < syncScoreAt g key signal o then o else best) 0

/-- Decoder: bit `i` combines the `framesPerBit` frames carrying it by summing
their pattern correlations and thresholding the signed evidence at the zero
reference. -/
def decodeBit (g : Geometry) (key : ℕ) (signal : List ℚ) (off i : ℕ) : Bool :=
  decide (0 < ((List.range g.framesPerBit).map (fun r =>
    corr (frameAt g signal off (g.syncFrameCount + i * g.framesPerBit + r))
      (patList g key RStream.data_up_down (g.syncFrameCount + i * g.framesPerBit + r)))).sum)

/-- Decoder: the message recovered from the block at a located offset. -/
def decodeAt (g : Geometry) (key : ℕ) (signal : List ℚ) (off : ℕ) : List Bool :=
  (List.range g.msgBits).map (decodeBit g key signal off)

/-- Detection: locate the best sync candidate, then decode the block there;
a signal shorter than one Block is refused (`none`). -/
def detect (g : Geometry) (key : ℕ) (signal : List ℚ) : Option (List Bool) :=
  if g.blockLen ≤ signal.length then
    some (decodeAt g key signal (locateBest g key signal))
  else none

/-! ## Command pipelines (main, src/audiowmark.cc lines 738-884) -/

/-- The key established by the shared options (test key seed, or default). -/
def keyOf (st : SharedOpts) : ℕ :=
  match st.testKey with
  | some k => seedNat k
  | none => 0

/-- The `add` command pipeline: shared options first; any error there ends the
run (exit 1) before the embedder touches the signal. -/
def addCommand (g : Geometry) (args : List String) (w : WavData) (msg : List Bool) :
    Except CmdError WavData :=
  match parseSharedOptions args with
  | Except.error e => Except.error e
  | Except.ok st =>
    match embedWav g w msg (keyOf st) 1 with
    | Except.error _ => Except.error CmdError.InputShort
    | Except.ok w2 => Except.ok w2

/-- The `get`/`cmp` detection pipeline after the shared options: get options
first; any error there ends the run (exit 1) before detection runs. -/
def getCommandAfterShared (g : Geometry) (args : List String) (w : WavData) :
    Except CmdError (Option (List Bool)) :=
  match parseGetOptions args with
  | Except.error e => Except.error e
  | Except.ok _ => Except.ok (detect g 0 w.samples)

/-! # Theorems -/

/-! ## C9: the test_clip selection loop -/

/-- C9: the clip-selection loop in `test_clip` terminates only when it draws a
start point with `start_point + time_seconds * sample_rate` strictly below the
input's frame count; when the frame count is at most
`time_seconds * sample_rate`, no draw can satisfy the exit condition and the
loop runs forever (modelled: it returns `none` for every iteration bound). -/
theorem testClip_loop_exit (frames tsecs rate : ℕ) (draw : ℕ → ℕ) :
    (∀ k fuel s, testClipRun frames tsecs rate draw k fuel = some s →
      s + tsecs * rate < frames) ∧
    (frames ≤ tsecs * rate →
      ∀ k fuel, testClipRun frames tsecs rate draw k fuel = none) := by
  constructor
  · intro k fuel
    induction fuel generalizing k with
    | zero => intro s h; simp [testClipRun] at h
    | succ n ih =>
      intro s h
      unfold testClipRun at h
      by_cases hc : draw k + tsecs * rate < frames
      · simp only [hc, if_pos] at h
        obtain rfl : draw k = s := Option.some.inj h
        exact hc
      · simp only [hc, if_neg, if_false] at h
        exact ih (k + 1) s h
  · intro hle k fuel
    induction fuel generalizing k with
    | zero => rfl
    | succ n ih =>
      unfold testClipRun
      have hc : ¬ (draw k + tsecs * rate < frames) := by omega
      simp only [hc, if_neg, if_false]
      exact ih (k + 1)

/-- Witness for C9: with 5 input frames and a 1-second clip at rate 10 the
loop never exits; with 100 frames a draw of 3 exits and indeed satisfies the
exit condition. -/
theorem testClip_loop_exit_witness :
    testClipRun 5 1 10 (fun _ => 0) 0 3 = none ∧ 3 + 1 * 1 < 100 :=
  ⟨(testClip_loop_exit 5 1 10 (fun _ => 0)).2 (by decide) 0 3,
   (testClip_loop_exit 100 1 1 (fun _ => 3)).1 0 2 3 (by decide)⟩

/-! ## C7: the test_speed factor -/

/-- C7: for every seed, the factor printed by `test-speed` is
`0.85 + u * (1.15 - 0.85)` for some `u ∈ [0, 1]`, hence always lies in the
supported speed range `[0.85, 1.15]`. -/
theorem testSpeed_factor_range (seed : ℤ) :
    ∃ u : ℚ, 0 ≤ u ∧ u ≤ 1 ∧
      testSpeedFactor seed = 0.85 + u * (1.15 - 0.85) ∧
      0.85 ≤ testSpeedFactor seed ∧ testSpeedFactor seed ≤ 1.15 := by
  set u : ℚ := (rngU64 seed 0 : ℚ) / 18446744073709551615 with hu
  have h0 : 0 ≤ u := by
    apply div_nonneg (by positivity) (by norm_num)
  have h1 : u ≤ 1 := by
    rw [hu, div_le_one (by norm_num)]
    have hlt : rngU64 seed 0 < 18446744073709551616 :=
      Nat.mod_lt _ (by norm_num)
    have : (rngU64 seed 0 : ℚ) ≤ ((18446744073709551615 : ℕ) : ℚ) := by
      exact_mod_cast Nat.le_of_lt_succ hlt
    simpa using this
  have hfac : testSpeedFactor seed = 0.85 + u * (1.15 - 0.85) := rfl
  refine ⟨u, h0, h1, hfac, ?_, ?_⟩
  · rw [hfac]; nlinarith
  · rw [hfac]; nlinarith

/-! ## C6: test_gen_noise -/

/-- C6: `test-gen-noise` produces 2 channels, 16-bit depth, the requested
sample rate, and exactly `⌊rate * seconds⌋` frames per channel (the sample
count is that frame count times the 2 channels), with every sample in
`[-1, 1)`; the generator is seeded with the fixed seed 0, so the output is a
pure function of (seconds, rate). -/
theorem testGenNoise_format (seconds : ℚ) (rate : ℕ) (hs : 0 ≤ seconds) :
    (testGenNoise seconds rate).nChannels = 2 ∧
    (testGenNoise seconds rate).bitDepth = 16 ∧
    (testGenNoise seconds rate).sampleRate = rate ∧
    ((testGenNoise seconds rate).samples.length : ℤ) = ⌊(rate : ℚ) * seconds⌋ * 2 ∧
    (∀ x ∈ (testGenNoise seconds rate).samples, -1 ≤ x ∧ x < 1) := by
  have hfl : 0 ≤ ⌊(rate : ℚ) * seconds⌋ :=
    Int.floor_nonneg.mpr (mul_nonneg (by positivity) hs)
  refine ⟨rfl, rfl, rfl, ?_, ?_⟩
  · have hlen : (testGenNoise seconds rate).samples.length =
        (⌊(rate : ℚ) * seconds⌋).toNat * 2 := by
      simp [testGenNoise]
    rw [hlen]
    push_cast
    rw [Int.toNat_of_nonneg hfl]
  · intro x hx
    simp only [testGenNoise, List.mem_map, List.mem_range] at hx
    obtain ⟨i, _, rfl⟩ := hx
    have hr0 : 0 ≤ random_double 0 i := by
      unfold random_double
      exact div_nonneg (Nat.cast_nonneg _) (by norm_num)
    have hr1 : random_double 0 i < 1 := by
      unfold random_double
      rw [div_lt_one (by norm_num)]
      have : keyedRand (seedNat 0) RStream.data_up_down i % 4294967296 < 4294967296 :=
        Nat.mod_lt _ (by norm_num)
      exact_mod_cast this
    constructor <;> nlinarith

/-- Witness for C6 at `seconds = 1`, `rate = 2`. -/
theorem testGenNoise_format_witness :
    0 ≤ (1 : ℚ) ∧
    ((testGenNoise 1 2).nChannels = 2 ∧
     (testGenNoise 1 2).bitDepth = 16 ∧
     (testGenNoise 1 2).sampleRate = 2 ∧
     ((testGenNoise 1 2).samples.length : ℤ) = ⌊((2 : ℕ) : ℚ) * 1⌋ * 2 ∧
     (∀ x ∈ (testGenNoise 1 2).samples, -1 ≤ x ∧ x < 1)) :=
  ⟨by norm_num, testGenNoise_format 1 2 (by norm_num)⟩

/-! ## C5: gen-key -/

/-- C5: when the output file can be opened, `gen-key` writes the comment
header line, a blank line, and the line `key <K>` where `K` is the freshly
generated 128-bit key (32 hex digits), and returns exit status 0; when the
file cannot be opened it reports an error and returns exit status 1 without
writing anything. -/
theorem genKey_output (seed : ℕ) (canOpen : Bool) :
    (canOpen = true →
      genKeyCmd canOpen seed =
        (some ["# watermarking key for audiowmark", "", "key " ++ gen_key_string seed], 0) ∧
      (gen_key_string seed).length = 32 ∧
      (∀ c ∈ (gen_key_string seed).toList, c ∈ hexChars)) ∧
    (canOpen = false → genKeyCmd canOpen seed = (none, 1)) := by
  constructor
  · intro h
    subst h
    refine ⟨rfl, ?_, ?_⟩
    · simp [gen_key_string, String.length]
    · intro c hc
      simp only [gen_key_string, String.toList, String.mk, List.mem_map,
        List.mem_range] at hc
      obtain ⟨i, _, rfl⟩ := hc
      have hlt : keyedRand seed RStream.pad i / 1152921504606846976 < 16 := by
        have hmod : keyedRand seed RStream.pad i < 18446744073709551616 := by
          unfold keyedRand keyedRandStep
          exact Nat.mod_lt _ (by norm_num)
        omega
      have hlen16 : hexChars.length = 16 := by decide
      have hlt16 : keyedRand seed RStream.pad i / 1152921504606846976 < hexChars.length := by
        rw [hlen16]
        exact hlt
      rw [List.getD_eq_getElem hexChars 'x' hlt16]
      exact List.getElem_mem _
  · intro h
    subst h
    rfl

/-- Witness for C5 at seed 0, both file outcomes. -/
theorem genKey_output_witness :
    (genKeyCmd true 0 =
      (some ["# watermarking key for audiowmark", "", "key " ++ gen_key_string 0], 0) ∧
     (gen_key_string 0).length = 32 ∧
     (∀ c ∈ (gen_key_string 0).toList, c ∈ hexChars)) ∧
    genKeyCmd false 0 = (none, 1) :=
  ⟨(genKey_output 0 true).1 rfl, (genKey_output 0 false).2 rfl⟩

/-! ## C2: the key-conflict check of parse_shared_options -/

/-- C2 (amended): for every argument list of a command that parses shared
options, `parse_shared_options` reports the key-conflict error (exit 1) iff
both a `--key` file and a `--test-key` seed were found by its scans and any
`--short` size found is supported (an unsupported `--short` size is reported
first, also with exit 1 and before any embedding); at most one key source
never produces the key-conflict error; and on a key conflict the `add`
pipeline stops with that error before the embedder produces any output. -/
theorem sharedOptions_keyConflict (args : List String) :
    (parseSharedOptions args = Except.error CmdError.KeyConflict ↔
      (1 < (scanSharedOptions args).haveKey ∧ sharedShortOk args = true)) ∧
    ((scanSharedOptions args).haveKey ≤ 1 →
      parseSharedOptions args ≠ Except.error CmdError.KeyConflict) ∧
    (∀ (g : Geometry) (w : WavData) (msg : List Bool),
      1 < (scanSharedOptions args).haveKey → sharedShortOk args = true →
      addCommand g args w msg = Except.error CmdError.KeyConflict) := by
  have hmain : parseSharedOptions args = Except.error CmdError.KeyConflict ↔
      (1 < (scanSharedOptions args).haveKey ∧ sharedShortOk args = true) := by
    unfold parseSharedOptions sharedShortOk
    cases h : (scanSharedOptions args).shortPayload with
    | none =>
      by_cases hk : (scanSharedOptions args).haveKey > 1 <;> simp [h, hk]
    | some sz =>
      by_cases hsc : short_code_init sz = true <;>
        by_cases hk : (scanSharedOptions args).haveKey > 1 <;>
          simp [h, hsc, hk]
  refine ⟨hmain, ?_, ?_⟩
  · intro hle hcontra
    have := hmain.mp hcontra
    omega
  · intro g w msg hk hok
    unfold addCommand
    rw [hmain.mpr ⟨hk, hok⟩]

/-- Witness for C2's amended theorem: `--key` and `--test-key` together (no
`--short`) produce the key-conflict error, and the add pipeline stops there. -/
theorem sharedOptions_keyConflict_witness :
    (1 < (scanSharedOptions ["--key", "a", "--test-key", "2"]).haveKey ∧
      sharedShortOk ["--key", "a", "--test-key", "2"] = true) ∧
    parseSharedOptions ["--key", "a", "--test-key", "2"] =
      Except.error CmdError.KeyConflict ∧
    addCommand ⟨1, 1, 1, 1⟩ ["--key", "a", "--test-key", "2"] ⟨[0, 0], 2, 44100, 16⟩ [] =
      Except.error CmdError.KeyConflict :=
  ⟨⟨by decide, by decide⟩,
   (sharedOptions_keyConflict ["--key", "a", "--test-key", "2"]).1.mpr ⟨by decide, by decide⟩,
   (sharedOptions_keyConflict ["--key", "a", "--test-key", "2"]).2.2
     ⟨1, 1, 1, 1⟩ ⟨[0, 0], 2, 44100, 16⟩ [] (by decide) (by decide)⟩

/-- Counterexample to C2 as stated: with both key sources and an unsupported
`--short 999`, `parse_shared_options` reports the short-payload error, not the
key-conflict error (the program still exits 1 before embedding). -/
theorem sharedOptions_keyConflict_cex :
    1 < (scanSharedOptions ["--key", "k.txt", "--test-key", "1", "--short", "999"]).haveKey ∧
    parseSharedOptions ["--key", "k.txt", "--test-key", "1", "--short", "999"] =
      Except.error (CmdError.ShortPayloadUnsupported 999) ∧
    parseSharedOptions ["--key", "k.txt", "--test-key", "1", "--short", "999"] ≠
      Except.error CmdError.KeyConflict := by
  refine ⟨by decide, by decide, by decide⟩

/-! ## C8: the speed-option conflict check of parse_get_options -/

/-- Helper: the `speed_options` counter exceeds 1 exactly when at least two of
the three speed flags were found. -/
theorem atLeastTwo_iff_count (a b c : Bool) :
    ((if a then 1 else 0) + (if b then 1 else 0) + (if c then 1 else 0) > 1) ↔
      atLeastTwo a b c = true := by
  cases a <;> cases b <;> cases c <;> decide

/-- C8: `parse_get_options` reports an error (exit 1) iff at least two of
`--detect-speed`, `--detect-speed-patient`, `--try-speed` were found by its
scans; with at most one of them it succeeds; and on a conflict the detection
pipeline stops with the error before any detection runs. -/
theorem getOptions_speedConflict (g : Geometry) (args : List String) (w : WavData) :
    (parseGetOptions args = Except.error CmdError.SpeedConflict ↔
      atLeastTwo (scanGetPre args).detectSpeed (scanGetPre args).detectSpeedPatient
        (scanGetPre args).trySpeedRaw.isSome = true) ∧
    (atLeastTwo (scanGetPre args).detectSpeed (scanGetPre args).detectSpeedPatient
        (scanGetPre args).trySpeedRaw.isSome = false →
      ∃ r, parseGetOptions args = Except.ok r) ∧
    (atLeastTwo (scanGetPre args).detectSpeed (scanGetPre args).detectSpeedPatient
        (scanGetPre args).trySpeedRaw.isSome = true →
      getCommandAfterShared g args w = Except.error CmdError.SpeedConflict) := by
  have hmain : parseGetOptions args = Except.error CmdError.SpeedConflict ↔
      atLeastTwo (scanGetPre args).detectSpeed (scanGetPre args).detectSpeedPatient
        (scanGetPre args).trySpeedRaw.isSome = true := by
    unfold parseGetOptions
    rw [← atLeastTwo_iff_count]
    by_cases hcnt : ((if (scanGetPre args).detectSpeed then 1 else 0) +
        (if (scanGetPre args).detectSpeedPatient then 1 else 0) +
        (if (scanGetPre args).trySpeedRaw.isSome then 1 else 0) > 1) <;> simp [hcnt]
  refine ⟨hmain, ?_, ?_⟩
  · intro hno
    unfold parseGetOptions
    have hcnt : ¬ ((if (scanGetPre args).detectSpeed then 1 else 0) +
        (if (scanGetPre args).detectSpeedPatient then 1 else 0) +
        (if (scanGetPre args).trySpeedRaw.isSome then 1 else 0) > 1) := by
      rw [atLeastTwo_iff_count]
      simp [hno]
    simp only [hcnt, if_neg, if_false]
    exact ⟨_, rfl⟩
  · intro htwo
    unfold getCommandAfterShared
    rw [hmain.mpr htwo]

/-- Witness for C8: `--detect-speed --detect-speed-patient` together conflict
and stop the pipeline; `--detect-speed` alone is accepted. -/
theorem getOptions_speedConflict_witness :
    (atLeastTwo (scanGetPre ["--detect-speed", "--detect-speed-patient"]).detectSpeed
      (scanGetPre ["--detect-speed", "--detect-speed-patient"]).detectSpeedPatient
      (scanGetPre ["--detect-speed", "--detect-speed-patient"]).trySpeedRaw.isSome = true) ∧
    parseGetOptions ["--detect-speed", "--detect-speed-patient"] =
      Except.error CmdError.SpeedConflict ∧
    getCommandAfterShared ⟨1, 1, 1, 1⟩ ["--detect-speed", "--detect-speed-patient"]
      ⟨[0, 0], 2, 44100, 16⟩ = Except.error CmdError.SpeedConflict ∧
    (∃ r, parseGetOptions ["--detect-speed"] = Except.ok r) :=
  ⟨by decide,
   (getOptions_speedConflict ⟨1, 1, 1, 1⟩ ["--detect-speed", "--detect-speed-patient"]
      ⟨[0, 0], 2, 44100, 16⟩).1.mpr (by decide),
   (getOptions_speedConflict ⟨1, 1, 1, 1⟩ ["--detect-speed", "--detect-speed-patient"]
      ⟨[0, 0], 2, 44100, 16⟩).2.2 (by decide),
   (getOptions_speedConflict ⟨1, 1, 1, 1⟩ ["--detect-speed"]
      ⟨[0, 0], 2, 44100, 16⟩).2.1 (by decide)⟩

/-! ## C10: ArgParser::parse_opt with a value -/

/-- A token that is neither the bare option nor of the `--option=` form
contributes no occurrence when consed in front. -/
theorem specOccValues_cons_benign (opt b : String) (rest : List String)
    (hb1 : (b == opt) = false) (hb2 : cppStartsWith b (opt ++ "=") = false) :
    specOccValues opt (b :: rest) = specOccValues opt rest := by
  cases rest with
  | nil => simp [specOccValues, hb2]
  | cons c rest2 => simp [specOccValues, hb1, hb2]

/-- `overlapFree` is preserved by dropping the head. -/
theorem overlapFree_tail (opt b : String) (rest : List String)
    (h : overlapFree opt (b :: rest) = true) : overlapFree opt rest = true := by
  cases rest with
  | nil => rfl
  | cons c rest2 =>
    have h2 := h
    unfold overlapFree at h2
    exact (Bool.and_eq_true _ _).mp h2 |>.2

/-- Characterization of the `parse_opt` scan on overlap-free argument lists:
the returned flag records whether any occurrence exists, and the returned
value is the last occurrence's value (or the initial `out` when there is
none). -/
theorem parseOptV_char (opt : String) (args : List String) (out : Option String)
    (found : Bool) :
    overlapFree opt args = true →
      (parseOptV opt args out found).1 = (found || !(specOccValues opt args).isEmpty) ∧
      (parseOptV opt args out found).2.1 =
        (if (specOccValues opt args).isEmpty then out
         else (specOccValues opt args).getLast?) := by
  induction args, out, found using parseOptV.induct opt with
  | case1 out found =>
    intro _
    simp [parseOptV, specOccValues]
  | case2 a out found hpre =>
    intro _
    simp [parseOptV, hpre, specOccValues]
  | case3 a out found hpre =>
    intro _
    simp [parseOptV, hpre, specOccValues]
  | case4 a b rest out found ha ih =>
    intro h
    have hfree : overlapFree opt (b :: rest) = true := by
      unfold overlapFree at h
      exact (Bool.and_eq_true _ _).mp h |>.2
    have hb : (!(b == opt) && !(cppStartsWith b (opt ++ "="))) = true := by
      unfold overlapFree at h
      have h1 := (Bool.and_eq_true _ _).mp h |>.1
      rcases (Bool.or_eq_true _ _).mp h1 with h1 | h1
      · rw [ha] at h1; exact absurd h1 (by simp)
      · exact h1
    have hb1 : (b == opt) = false := by
      have := (Bool.and_eq_true _ _).mp hb |>.1
      simpa using this
    have hb2 : cppStartsWith b (opt ++ "=") = false := by
      have := (Bool.and_eq_true _ _).mp hb |>.2
      simpa using this
    have hspec : specOccValues opt (a :: b :: rest) = b :: specOccValues opt rest := by
      rw [show specOccValues opt (a :: b :: rest) = b :: specOccValues opt (b :: rest) by
        simp [specOccValues, ha]]
      rw [specOccValues_cons_benign opt b rest hb1 hb2]
    have hstep : parseOptV opt (a :: b :: rest) out found = parseOptV opt rest (some b) true := by
      simp [parseOptV, ha]
    obtain ⟨ih1, ih2⟩ := ih (overlapFree_tail opt b rest hfree)
    rw [hstep, hspec]
    constructor
    · rw [ih1]; simp
    · rw [ih2]
      cases hsr : specOccValues opt rest with
      | nil => simp
      | cons x xs => simp [List.getLast?_cons]
  | case5 a b rest out found ha hpre ih =>
    intro h
    have hfree : overlapFree opt (b :: rest) = true := by
      unfold overlapFree at h
      exact (Bool.and_eq_true _ _).mp h |>.2
    have hspec : specOccValues opt (a :: b :: rest) =
        optValueOf opt a :: specOccValues opt (b :: rest) := by
      simp [specOccValues, ha, hpre]
    have hstep : parseOptV opt (a :: b :: rest) out found =
        parseOptV opt (b :: rest) (some (optValueOf opt a)) true := by
      simp [parseOptV, ha, hpre]
    obtain ⟨ih1, ih2⟩ := ih hfree
    rw [hstep, hspec]
    constructor
    · rw [ih1]; simp
    · rw [ih2]
      cases hsr : specOccValues opt (b :: rest) with
      | nil => simp
      | cons x xs => simp [List.getLast?_cons]
  | case6 a b rest out found ha hpre ih =>
    intro h
    have hfree : overlapFree opt (b :: rest) = true := by
      unfold overlapFree at h
      exact (Bool.and_eq_true _ _).mp h |>.2
    have hspec : specOccValues opt (a :: b :: rest) = specOccValues opt (b :: rest) := by
      simp [specOccValues, ha, hpre]
    have hstep : parseOptV opt (a :: b :: rest) out found =
        ((parseOptV opt (b :: rest) out found).1,
         (parseOptV opt (b :: rest) out found).2.1,
         a :: (parseOptV opt (b :: rest) out found).2.2) := by
      simp [parseOptV, ha, hpre]
    obtain ⟨ih1, ih2⟩ := ih hfree
    rw [hstep, hspec]
    exact ⟨ih1, ih2⟩

/-- The scan leaves no occurrence of the option in the remaining arguments. -/
theorem parseOptV_rest_clean (opt : String) (args : List String) (out : Option String)
    (found : Bool) :
    specOccValues opt ((parseOptV opt args out found).2.2) = [] := by
  induction args, out, found using parseOptV.induct opt with
  | case1 out found => simp [parseOptV, specOccValues]
  | case2 a out found hpre => simp [parseOptV, hpre, specOccValues]
  | case3 a out found hpre => simp [parseOptV, hpre, specOccValues]
  | case4 a b rest out found ha ih =>
    have hstep : parseOptV opt (a :: b :: rest) out found = parseOptV opt rest (some b) true := by
      simp [parseOptV, ha]
    rw [hstep]
    exact ih
  | case5 a b rest out found ha hpre ih =>
    have hstep : parseOptV opt (a :: b :: rest) out found =
        parseOptV opt (b :: rest) (some (optValueOf opt a)) true := by
      simp [parseOptV, ha, hpre]
    rw [hstep]
    exact ih
  | case6 a b rest out found ha hpre ih =>
    have hstep : (parseOptV opt (a :: b :: rest) out found).2.2 =
        a :: (parseOptV opt (b :: rest) out found).2.2 := by
      simp [parseOptV, ha, hpre]
    rw [hstep]
    rw [specOccValues_cons_benign opt a _ (by simpa using ha) (by simpa using hpre)]
    exact ih

/-- C10 (amended): on argument lists where no occurrence of the option is
immediately followed by a token that itself looks like the option (the greedy
scan otherwise consumes that token as a value), `parse_opt` with a value
removes every occurrence in both the `--option value` and `--option=value`
forms, returns true iff at least one occurrence is present, and leaves the
output set to the value of the last occurrence. -/
theorem parseOpt_lastValue (opt : String) (args : List String)
    (h : overlapFree opt args = true) :
    (parseOptValue opt args).1 = !(specOccValues opt args).isEmpty ∧
    (parseOptValue opt args).2.1 = (specOccValues opt args).getLast? ∧
    specOccValues opt ((parseOptValue opt args).2.2) = [] := by
  obtain ⟨h1, h2⟩ := parseOptV_char opt args none false h
  refine ⟨by simpa using h1, ?_, parseOptV_rest_clean opt args none false⟩
  unfold parseOptValue
  rw [h2]
  cases hsr : specOccValues opt args with
  | nil => simp
  | cons x xs => simp

/-- Witness for C10's amended theorem on
`["--opt", "a", "x", "--opt=b"]`: both occurrence forms are found, the last
value `b` is returned, and no occurrence remains. -/
theorem parseOpt_lastValue_witness :
    overlapFree "--opt" ["--opt", "a", "x", "--opt=b"] = true ∧
    ((parseOptValue "--opt" ["--opt", "a", "x", "--opt=b"]).1 =
      !(specOccValues "--opt" ["--opt", "a", "x", "--opt=b"]).isEmpty ∧
     (parseOptValue "--opt" ["--opt", "a", "x", "--opt=b"]).2.1 =
      (specOccValues "--opt" ["--opt", "a", "x", "--opt=b"]).getLast? ∧
     specOccValues "--opt" ((parseOptValue "--opt" ["--opt", "a", "x", "--opt=b"]).2.2) = []) :=
  ⟨by decide, parseOpt_lastValue "--opt" ["--opt", "a", "x", "--opt=b"] (by decide)⟩

/-- Counterexample to C10 as stated: on `["--opt", "--opt", "x"]` the scan
consumes the second `--opt` as the value of the first, so the output is set to
`"--opt"` although the last occurrence's value is `"x"`. -/
theorem parseOpt_lastValue_cex :
    (parseOptValue "--opt" ["--opt", "--opt", "x"]).2.1 = some "--opt" ∧
    (specOccValues "--opt" ["--opt", "--opt", "x"]).getLast? = some "x" ∧
    (parseOptValue "--opt" ["--opt", "--opt", "x"]).2.1 ≠
      (specOccValues "--opt" ["--opt", "--opt", "x"]).getLast? := by
  refine ⟨by decide, by decide, by decide⟩

/-! ## Engine lemmas: frame lengths and pattern correlation -/

theorem patSign_mul_self (key : ℕ) (tag : RStream) (j t : ℕ) :
    patSign key tag j t * patSign key tag j t = 1 := by
  unfold patSign
  split <;> norm_num

theorem length_patList (g : Geometry) (key : ℕ) (tag : RStream) (j : ℕ) :
    (patList g key tag j).length = g.frameSize := by
  simp [patList]

theorem length_frameAt (g : Geometry) (signal : List ℚ) (j : ℕ)
    (h : (j + 1) * g.frameSize ≤ signal.length) :
    (frameAt g signal 0 j).length = g.frameSize := by
  unfold frameAt
  rw [Nat.succ_mul] at h
  simp only [List.length_take, List.length_drop]
  omega

theorem length_embedFrame (f s : List ℚ) (target : ℚ) (n : ℕ) :
    (embedFrame f s target n).length = min f.length s.length := by
  simp [embedFrame]

theorem length_embedFrameJ (g : Geometry) (key : ℕ) (strength : ℚ) (msg : List Bool)
    (j : ℕ) (f : List ℚ) (hf : f.length = g.frameSize) :
    (embedFrameJ g key strength msg j f).length = g.frameSize := by
  unfold embedFrameJ
  rw [length_embedFrame, hf, length_patList]
  exact min_self _

theorem sum_map_const_nat {α : Type} (l : List α) (c : ℕ) :
    (l.map (fun _ => c)).sum = l.length * c := by
  induction l with
  | nil => simp
  | cons x tl ih => simp [ih, Nat.succ_mul]; omega

theorem length_embedSamples (g : Geometry) (signal : List ℚ) (msg : List Bool)
    (key : ℕ) (strength : ℚ) (hlen : g.blockLen ≤ signal.length) :
    (embedSamples g signal msg key strength).length = signal.length := by
  unfold embedSamples
  rw [List.length_append, List.length_flatten, List.length_drop]
  have hmap : List.map List.length
      ((List.range g.blockFrames).map
        (fun j => embedFrameJ g key strength msg j (frameAt g signal 0 j))) =
      (List.range g.blockFrames).map (fun _ => g.frameSize) := by
    rw [List.map_map]
    apply List.map_congr_left
    intro j hj
    have hjlt : j < g.blockFrames := List.mem_range.mp hj
    have hfl : (frameAt g signal 0 j).length = g.frameSize := by
      apply length_frameAt
      calc (j + 1) * g.frameSize ≤ g.blockFrames * g.frameSize :=
            Nat.mul_le_mul_right g.frameSize hjlt
        _ ≤ signal.length := hlen
    exact length_embedFrameJ g key strength msg j _ hfl
  rw [hmap, sum_map_const_nat, List.length_range]
  have : g.blockFrames * g.frameSize = g.blockLen := rfl
  omega

theorem corr_zip_add (c : ℚ) : ∀ (f s : List ℚ), f.length = s.length →
    corr (List.zipWith (fun x t => x + t * c) f s) s =
      corr f s + c * (List.zipWith (fun a b => a * b) s s).sum := by
  intro f
  induction f with
  | nil =>
    intro s h
    cases s with
    | nil => simp [corr]
    | cons t ts => simp at h
  | cons x xs ih =>
    intro s h
    cases s with
    | nil => simp at h
    | cons t ts =>
      have h' : xs.length = ts.length := by simpa using h
      have hrec := ih ts h'
      simp only [List.zipWith_cons_cons, corr, List.sum_cons] at hrec ⊢
      rw [hrec]
      ring

theorem sum_sq_of_pm_one (p : ℕ → ℚ) (hp : ∀ x, p x * p x = 1) :
    ∀ (l : List ℕ),
      (List.zipWith (fun a b => a * b) (l.map p) (l.map p)).sum = (l.length : ℚ) := by
  intro l
  induction l with
  | nil => simp
  | cons x tl ih =>
    simp only [List.map_cons, List.zipWith_cons_cons, List.sum_cons, ih, hp x,
      List.length_cons]
    push_cast
    ring

theorem sum_sq_patList (g : Geometry) (key : ℕ) (tag : RStream) (j : ℕ) :
    (List.zipWith (fun a b => a * b) (patList g key tag j) (patList g key tag j)).sum =
      (g.frameSize : ℚ) := by
  unfold patList
  rw [sum_sq_of_pm_one (patSign key tag j) (patSign_mul_self key tag j)]
  simp

theorem corr_embedFrame (f s : List ℚ) (target : ℚ) (n : ℕ) (hn : 0 < n)
    (hf : f.length = s.length)
    (hsq : (List.zipWith (fun a b => a * b) s s).sum = (n : ℚ)) :
    corr (embedFrame f s target n) s = target := by
  unfold embedFrame
  rw [corr_zip_add _ f s hf, hsq]
  have hnz : (n : ℚ) ≠ 0 := Nat.cast_ne_zero.mpr hn.ne'
  field_simp

theorem loudRef_pos (f : List ℚ) : 0 < loudRef f := by
  unfold loudRef
  have : 0 ≤ (f.map (fun x => |x|)).sum := by
    apply List.sum_nonneg
    intro x hx
    obtain ⟨y, _, rfl⟩ := List.mem_map.mp hx
    exact abs_nonneg y
  linarith

theorem corr_embedFrameJ (g : Geometry) (key : ℕ) (strength : ℚ) (msg : List Bool)
    (j : ℕ) (f : List ℚ) (hF : 0 < g.frameSize) (hf : f.length = g.frameSize) :
    corr (embedFrameJ g key strength msg j f) (patList g key (frameTag g j) j) =
      targetSign g msg j * (strength * loudRef f) := by
  unfold embedFrameJ
  apply corr_embedFrame _ _ _ _ hF
  · rw [hf, length_patList]
  · exact sum_sq_patList g key (frameTag g j) j

/-! ## Engine lemmas: block extraction -/

theorem flatten_frame_extract (F : ℕ) : ∀ (L : List (List ℚ)) (r : List ℚ) (j : ℕ),
    (∀ f ∈ L, f.length = F) → j < L.length →
    ((L.flatten ++ r).drop (j * F)).take F = L.getD j [] := by
  intro L
  induction L with
  | nil =>
    intro r j _ hj
    simp at hj
  | cons f0 tl ih =>
    intro r j hlen hj
    have h0 : f0.length = F := hlen f0 (by simp)
    cases j with
    | zero =>
      simp only [Nat.zero_mul, List.drop_zero, List.flatten_cons, List.append_assoc,
        List.getD_cons_zero]
      rw [← h0, List.take_left]
    | succ j' =>
      simp only [List.flatten_cons, List.append_assoc, List.getD_cons_succ]
      have harith : (j' + 1) * F = f0.length + j' * F := by
        rw [h0, Nat.succ_mul]
        omega
      rw [harith, List.drop_append]
      exact ih r j' (fun f hf => hlen f (List.mem_cons_of_mem _ hf)) (by simpa using hj)

theorem getD_map_range {α : Type} (n j : ℕ) (h : ℕ → α) (d : α) (hj : j < n) :
    ((List.range n).map h).getD j d = h j := by
  have hlt : j < ((List.range n).map h).length := by simpa using hj
  rw [List.getD_eq_getElem _ _ hlt, List.getElem_map, List.getElem_range]

theorem frameAt_embedSamples (g : Geometry) (key : ℕ) (strength : ℚ)
    (signal : List ℚ) (msg : List Bool) (j : ℕ)
    (hlen : g.blockLen ≤ signal.length) (hj : j < g.blockFrames) :
    frameAt g (embedSamples g signal msg key strength) 0 j =
      embedFrameJ g key strength msg j (frameAt g signal 0 j) := by
  unfold embedSamples
  unfold frameAt
  simp only [Nat.zero_add]
  rw [flatten_frame_extract g.frameSize _ _ j ?uniform ?inrange]
  case uniform =>
    intro f hf
    obtain ⟨j2, hj2, rfl⟩ := List.mem_map.mp hf
    have hj2lt : j2 < g.blockFrames := List.mem_range.mp hj2
    apply length_embedFrameJ
    have hfl := length_frameAt g signal j2 (by
      calc (j2 + 1) * g.frameSize ≤ g.blockFrames * g.frameSize :=
            Nat.mul_le_mul_right g.frameSize hj2lt
        _ ≤ signal.length := hlen)
    simpa [frameAt] using hfl
  case inrange => simpa using hj
  exact getD_map_range g.blockFrames j _ [] hj

/-! ## C3: embedding preserves length, channel count, and sample rate -/

/-- C3: for every input accepted by the embedder, the watermarked output has
exactly the input's length, channel count, and sample rate (and bit depth). -/
theorem embed_preserves_format (g : Geometry) (w : WavData) (msg : List Bool)
    (key : ℕ) (strength : ℚ) (w2 : WavData)
    (h : embedWav g w msg key strength = Except.ok w2) :
    w2.samples.length = w.samples.length ∧ w2.nChannels = w.nChannels ∧
    w2.sampleRate = w.sampleRate ∧ w2.bitDepth = w.bitDepth := by
  unfold embedWav at h
  by_cases hlt : w.samples.length < g.blockLen
  · rw [if_pos hlt] at h
    cases h
  · rw [if_neg hlt] at h
    obtain rfl : (⟨embedSamples g w.samples msg key strength,
        w.nChannels, w.sampleRate, w.bitDepth⟩ : WavData) = w2 := Except.ok.inj h
    exact ⟨length_embedSamples g w.samples msg key strength (le_of_not_lt hlt),
      rfl, rfl, rfl⟩

/-- Witness for C3: a concrete embedding run (one sync frame, no data
frames) preserving the input format. -/
theorem embed_preserves_format_witness :
    embedWav ⟨1, 1, 1, 0⟩ ⟨[5], 2, 8, 16⟩ [] 0 0 = Except.ok ⟨[0], 2, 8, 16⟩ ∧
    ((⟨[0], 2, 8, 16⟩ : WavData).samples.length =
        (⟨[5], 2, 8, 16⟩ : WavData).samples.length ∧
      (⟨[0], 2, 8, 16⟩ : WavData).nChannels = (⟨[5], 2, 8, 16⟩ : WavData).nChannels ∧
      (⟨[0], 2, 8, 16⟩ : WavData).sampleRate = (⟨[5], 2, 8, 16⟩ : WavData).sampleRate ∧
      (⟨[0], 2, 8, 16⟩ : WavData).bitDepth = (⟨[5], 2, 8, 16⟩ : WavData).bitDepth) :=
  ⟨by with_unfolding_all decide,
   embed_preserves_format ⟨1, 1, 1, 0⟩ ⟨[5], 2, 8, 16⟩ [] 0 0 ⟨[0], 2, 8, 16⟩
     (by with_unfolding_all decide)⟩

/-! ## C4: the pipeline is deterministic -/

/-- C4: embedding and detection are pure functions of their inputs — two
embedding calls with identical (signal, message, key, strength) produce
identical output, and two detection calls with identical inputs produce the
identical top candidate and decoded message (the modelled pipeline has no
hidden state; the only randomness is the keyed stream, a deterministic
function of the key). -/
theorem pipeline_deterministic (g : Geometry) (w w2 : WavData) (msg msg2 : List Bool)
    (key key2 : ℕ) (strength strength2 : ℚ) (s s2 : List ℚ)
    (hw : w = w2) (hm : msg = msg2) (hk : key = key2) (hst : strength = strength2)
    (hs : s = s2) :
    embedWav g w msg key strength = embedWav g w2 msg2 key2 strength2 ∧
    locateBest g key s = locateBest g key2 s2 ∧
    detect g key s = detect g key2 s2 := by
  subst hw hm hk hst hs
  exact ⟨rfl, rfl, rfl⟩

/-- Witness for C4 at concrete inputs. -/
theorem pipeline_deterministic_witness :
    embedWav ⟨1, 1, 1, 1⟩ ⟨[0, 0], 2, 44100, 16⟩ [true] 7 1 =
      embedWav ⟨1, 1, 1, 1⟩ ⟨[0, 0], 2, 44100, 16⟩ [true] 7 1 ∧
    locateBest ⟨1, 1, 1, 1⟩ 7 [0, 0] = locateBest ⟨1, 1, 1, 1⟩ 7 [0, 0] ∧
    detect ⟨1, 1, 1, 1⟩ 7 [0, 0] = detect ⟨1, 1, 1, 1⟩ 7 [0, 0] :=
  pipeline_deterministic ⟨1, 1, 1, 1⟩ ⟨[0, 0], 2, 44100, 16⟩ ⟨[0, 0], 2, 44100, 16⟩
    [true] [true] 7 7 1 1 [0, 0] [0, 0] rfl rfl rfl rfl rfl

/-! ## Engine lemmas: sync search and decoding on an embedded signal -/

theorem list_sum_neg (l : List ℚ) (h : ∀ x ∈ l, x < 0) (hne : l ≠ []) : l.sum < 0 := by
  induction l with
  | nil => exact absurd rfl hne
  | cons x tl ih =>
    cases tl with
    | nil => simpa using h x (by simp)
    | cons y ys =>
      have hx := h x (by simp)
      have htl := ih (fun z hz => h z (List.mem_cons_of_mem _ hz)) (by simp)
      simp only [List.sum_cons] at htl ⊢
      linarith

theorem foldl_best_keep (f : ℕ → ℕ) : ∀ (l : List ℕ) (a : ℕ),
    (∀ o ∈ l, f o ≤ f a) →
    l.foldl (fun best o => if f best < f o then o else best) a = a := by
  intro l
  induction l with
  | nil => intro a _; rfl
  | cons o tl ih =>
    intro a h
    simp only [List.foldl_cons]
    rw [if_neg (not_lt.mpr (h o (List.mem_cons_self o tl)))]
    exact ih a (fun x hx => h x (List.mem_cons_of_mem _ hx))

theorem syncScore_le (g : Geometry) (key : ℕ) (s : List ℚ) (off : ℕ) :
    syncScoreAt g key s off ≤ g.syncFrameCount := by
  unfold syncScoreAt
  calc (List.filter _ (List.range g.syncFrameCount)).length
      ≤ (List.range g.syncFrameCount).length := List.length_filter_le _ _
    _ = g.syncFrameCount := List.length_range g.syncFrameCount

theorem corr_frameAt_embed (g : Geometry) (key : ℕ) (strength : ℚ)
    (signal : List ℚ) (msg : List Bool) (j : ℕ)
    (hF : 0 < g.frameSize) (hlen : g.blockLen ≤ signal.length) (hj : j < g.blockFrames) :
    corr (frameAt g (embedSamples g signal msg key strength) 0 j)
        (patList g key (frameTag g j) j) =
      targetSign g msg j * (strength * loudRef (frameAt g signal 0 j)) := by
  rw [frameAt_embedSamples g key strength signal msg j hlen hj]
  apply corr_embedFrameJ g key strength msg j _ hF
  apply length_frameAt
  calc (j + 1) * g.frameSize ≤ g.blockFrames * g.frameSize :=
        Nat.mul_le_mul_right g.frameSize hj
    _ ≤ signal.length := hlen

theorem syncScore_embed_eq (g : Geometry) (key : ℕ) (strength : ℚ)
    (signal : List ℚ) (msg : List Bool)
    (hF : 0 < g.frameSize) (hs : 0 < strength) (hlen : g.blockLen ≤ signal.length) :
    syncScoreAt g key (embedSamples g signal msg key strength) 0 = g.syncFrameCount := by
  unfold syncScoreAt
  rw [List.filter_eq_self.mpr ?allpos]
  case allpos =>
    intro j hj
    have hjs : j < g.syncFrameCount := List.mem_range.mp hj
    have hjb : j < g.blockFrames :=
      lt_of_lt_of_le hjs (Nat.le_add_right g.syncFrameCount g.dataFrameCount)
    have htag : frameTag g j = RStream.sync_up_down := if_pos hjs
    have hts : targetSign g msg j = 1 := if_pos hjs
    have hcorr := corr_frameAt_embed g key strength signal msg j hF hlen hjb
    rw [htag, hts, one_mul] at hcorr
    rw [decide_eq_true_eq, hcorr]
    exact mul_pos hs (loudRef_pos _)
  exact List.length_range g.syncFrameCount

theorem locateBest_embed (g : Geometry) (key : ℕ) (strength : ℚ)
    (signal : List ℚ) (msg : List Bool)
    (hF : 0 < g.frameSize) (hs : 0 < strength) (hlen : g.blockLen ≤ signal.length) :
    locateBest g key (embedSamples g signal msg key strength) = 0 := by
  unfold locateBest
  apply foldl_best_keep
  intro o _
  rw [syncScore_embed_eq g key strength signal msg hF hs hlen]
  exact syncScore_le g key _ o

theorem decodeBit_embed (g : Geometry) (key : ℕ) (strength : ℚ)
    (signal : List ℚ) (msg : List Bool) (i : ℕ)
    (hF : 0 < g.frameSize) (hfpb : 0 < g.framesPerBit) (hs : 0 < strength)
    (hlen : g.blockLen ≤ signal.length) (hi : i < g.msgBits) :
    decodeBit g key (embedSamples g signal msg key strength) 0 i = msg.getD i false := by
  unfold decodeBit
  have hterm : ∀ r < g.framesPerBit,
      corr (frameAt g (embedSamples g signal msg key strength) 0
          (g.syncFrameCount + i * g.framesPerBit + r))
        (patList g key RStream.data_up_down (g.syncFrameCount + i * g.framesPerBit + r)) =
      (if msg.getD i false then 1 else -1) *
        (strength * loudRef (frameAt g signal 0 (g.syncFrameCount + i * g.framesPerBit + r))) := by
    intro r hr
    have h1 : (i + 1) * g.framesPerBit ≤ g.msgBits * g.framesPerBit :=
      Nat.mul_le_mul_right g.framesPerBit hi
    have h2 : i * g.framesPerBit + r < (i + 1) * g.framesPerBit := by
      rw [Nat.succ_mul]
      exact Nat.add_lt_add_left hr _
    have h3 : i * g.framesPerBit + r < g.msgBits * g.framesPerBit := lt_of_lt_of_le h2 h1
    have hjb : g.syncFrameCount + i * g.framesPerBit + r < g.blockFrames := by
      have := Nat.add_lt_add_left h3 g.syncFrameCount
      unfold Geometry.blockFrames Geometry.dataFrameCount
      rw [Nat.add_assoc]
      exact this
    have hge : g.syncFrameCount ≤ g.syncFrameCount + i * g.framesPerBit + r := by
      rw [Nat.add_assoc]
      exact Nat.le_add_right _ _
    have htag : frameTag g (g.syncFrameCount + i * g.framesPerBit + r) = RStream.data_up_down :=
      if_neg (not_lt.mpr hge)
    have hsub : g.syncFrameCount + i * g.framesPerBit + r - g.syncFrameCount =
        i * g.framesPerBit + r := by
      rw [Nat.add_assoc]
      simp
    have hdiv : (i * g.framesPerBit + r) / g.framesPerBit = i := by
      rw [Nat.add_comm, Nat.mul_comm, Nat.add_mul_div_left r i hfpb,
        Nat.div_eq_of_lt hr]
      omega
    have hts : targetSign g msg (g.syncFrameCount + i * g.framesPerBit + r) =
        (if msg.getD i false then 1 else -1) := by
      unfold targetSign
      rw [if_neg (not_lt.mpr hge), hsub, hdiv]
    have hcorr := corr_frameAt_embed g key strength signal msg
      (g.syncFrameCount + i * g.framesPerBit + r) hF hlen hjb
    rw [htag, hts] at hcorr
    exact hcorr
  cases hbit : msg.getD i false with
  | true =>
    rw [decide_eq_true_eq]
    apply List.sum_pos
    · intro x hx
      obtain ⟨r, hrmem, rfl⟩ := List.mem_map.mp hx
      have hr : r < g.framesPerBit := List.mem_range.mp hrmem
      rw [hterm r hr, hbit, if_pos rfl, one_mul]
      exact mul_pos hs (loudRef_pos _)
    · simp only [ne_eq, List.map_eq_nil_iff, List.range_eq_nil]
      exact hfpb.ne'
  | false =>
    rw [decide_eq_false_iff_not, not_lt]
    apply le_of_lt
    apply list_sum_neg
    · intro x hx
      obtain ⟨r, hrmem, rfl⟩ := List.mem_map.mp hx
      have hr : r < g.framesPerBit := List.mem_range.mp hrmem
      rw [hterm r hr, hbit, if_neg (by simp)]
      have := mul_pos hs (loudRef_pos (frameAt g signal 0
        (g.syncFrameCount + i * g.framesPerBit + r)))
      linarith
    · simp only [ne_eq, List.map_eq_nil_iff, List.range_eq_nil]
      exact hfpb.ne'

theorem decodeAt_embed (g : Geometry) (key : ℕ) (strength : ℚ)
    (signal : List ℚ) (msg : List Bool)
    (hF : 0 < g.frameSize) (hfpb : 0 < g.framesPerBit) (hs : 0 < strength)
    (hlen : g.blockLen ≤ signal.length) (hmsg : msg.length = g.msgBits) :
    decodeAt g key (embedSamples g signal msg key strength) 0 = msg := by
  unfold decodeAt
  apply List.ext_getElem
  · simp [hmsg]
  · intro i h1 h2
    rw [List.getElem_map, List.getElem_range]
    have hi : i < g.msgBits := by simpa using h1
    rw [decodeBit_embed g key strength signal msg i hF hfpb hs hlen hi]
    exact List.getD_eq_getElem msg false h2

/-! ## C1: the no-distortion round trip -/

/-- C1: for every signal at least one Block long, every key, and every message
of the configured width, running detection (locate, then decode at the top
candidate) with the embedding key on the undistorted output of the embedder
recovers the message with zero bit errors.  (The geometry is well formed —
positive frame size and frames-per-bit — and the strength is positive, as the
default configuration is.) -/
theorem watermark_round_trip (g : Geometry) (key : ℕ) (strength : ℚ)
    (signal : List ℚ) (msg : List Bool)
    (hF : 0 < g.frameSize) (hfpb : 0 < g.framesPerBit) (hs : 0 < strength)
    (hlen : g.blockLen ≤ signal.length) (hmsg : msg.length = g.msgBits) :
    detect g key (embedSamples g signal msg key strength) = some msg := by
  have hW : (embedSamples g signal msg key strength).length = signal.length :=
    length_embedSamples g signal msg key strength hlen
  unfold detect
  rw [if_pos (by rw [hW]; exact hlen)]
  rw [locateBest_embed g key strength signal msg hF hs hlen]
  rw [decodeAt_embed g key strength signal msg hF hfpb hs hlen hmsg]

/-- Witness for C1: a concrete embed/locate/decode run recovering the
message `[true]`. -/
theorem watermark_round_trip_witness :
    (0 < (⟨1, 1, 1, 1⟩ : Geometry).frameSize ∧
     0 < (⟨1, 1, 1, 1⟩ : Geometry).framesPerBit ∧
     0 < (1 : ℚ) ∧
     (⟨1, 1, 1, 1⟩ : Geometry).blockLen ≤ ([0, 0] : List ℚ).length ∧
     ([true] : List Bool).length = (⟨1, 1, 1, 1⟩ : Geometry).msgBits) ∧
    detect ⟨1, 1, 1, 1⟩ 7 (embedSamples ⟨1, 1, 1, 1⟩ [0, 0] [true] 7 1) = some [true] :=
  ⟨⟨by decide, by decide, by with_unfolding_all decide, by decide, by decide⟩,
   watermark_round_trip ⟨1, 1, 1, 1⟩ 7 1 [0, 0] [true]
     (by decide) (by decide) (by with_unfolding_all decide) (by decide) (by decide)⟩

end Awm
